import Mathlib

/-!
Verification of the abfs namespace/content core (`fs.go`, `blob.go`) against its
specification.  The Go code is shallowly embedded: Go strings become `List Char`,
byte buffers become a backing-array model of `bytes.Buffer` (so that slice
aliasing, which the rollback path of `File.WriteAt` depends on, is captured),
the file tree becomes a purely functional tree, and the Azure collaborator
becomes an explicit `Remote` record carried in a `SysState`.
-/

set_option autoImplicit false

namespace Abfs

/-- Go strings are modelled as lists of characters. -/
abbrev GoStr := List Char

/-- Convert a Lean string literal to the Go string model. -/
def gs (s : String) : GoStr := s.toList

/-! ### Go standard library: `strings.Split(s, "/")`, `path.Clean`, `path.Split` -/

/-- `strings.Split(s, "/")`: split on every slash; `n` slashes give `n+1` pieces. -/
def splitSlash : GoStr → List GoStr
  | [] => [[]]
  | c :: rest =>
    if c = '/' then [] :: splitSlash rest
    else
      match splitSlash rest with
      | s :: ss => (c :: s) :: ss
      | [] => [[c]]

/-- One step of `path.Clean`'s segment processing (accumulator kept reversed):
empty and `.` segments are dropped, `..` pops the previous segment (kept at the
root, preserved when nothing non-`..` precedes it in a relative path). -/
def cleanStep (rooted : Bool) (acc : List GoStr) (seg : GoStr) : List GoStr :=
  if seg = [] ∨ seg = ['.'] then acc
  else if seg = ['.', '.'] then
    match acc with
    | [] => if rooted then [] else [['.', '.']]
    | top :: rest => if top = ['.', '.'] then ['.', '.'] :: top :: rest else rest
  else seg :: acc

/-- Join segments with single slashes. -/
def segJoin : List GoStr → GoStr
  | [] => []
  | [s] => s
  | s :: rest => s ++ '/' :: segJoin rest

/-- Go's `path.Clean`, via the standard segment description of its lazybuf
algorithm: collapse slashes, drop `.`, resolve `..`, empty result is `.`
(or `/` when rooted). -/
def clean (p : GoStr) : GoStr :=
  match p with
  | [] => ['.']
  | c :: _ =>
    let rooted := c = '/'
    let segs := ((splitSlash p).foldl (cleanStep rooted) []).reverse
    if rooted then '/' :: segJoin segs
    else if segs = [] then ['.'] else segJoin segs

/-- Go's `path.Split`: split after the final slash into (dir-with-trailing-slash,
file); with no slash the dir part is empty. -/
def pathSplit (p : GoStr) : GoStr × GoStr :=
  let rev := p.reverse
  let fileRev := rev.takeWhile (fun c => !(c = '/' : Bool))
  ((rev.drop fileRev.length).reverse, fileRev.reverse)

/-! ### `bytes.Buffer` model

A `bytes.Buffer` whose read offset is always `0` (this program never reads from
its buffers, only `Bytes`/`Truncate`/`Write`/`Reset`) is a backing array plus a
logical length.  `arr` is the full backing array (its length is the capacity);
the contents are its first `len` bytes.  `write` reports whether it mutated the
backing array in place (`true`) or allocated a fresh array (`false`), which is
what the aliasing behaviour of a saved `Bytes()` slice depends on. -/

structure GoBuffer where
  arr : List Nat
  len : Nat
  deriving Repr, DecidableEq

/-- `Blob.Contents` / `bytes.Buffer.Bytes`: the first `len` bytes. -/
def GoBuffer.bytes (b : GoBuffer) : List Nat := b.arr.take b.len

/-- `bytes.Buffer.Truncate n` (only called with `n` below the length). -/
def GoBuffer.truncate (b : GoBuffer) (n : Nat) : GoBuffer := { b with len := n }

/-- `bytes.Buffer.Reset`: keeps the backing array, drops the contents. -/
def GoBuffer.reset (b : GoBuffer) : GoBuffer := { b with len := 0 }

/-- Pad a list with zero bytes up to capacity `c`. -/
def padZeros (l : List Nat) (c : Nat) : List Nat := l ++ List.replicate (c - l.length) 0

/-- `bytes.Buffer.Write p`: append in place when capacity allows (mutating the
shared backing array), otherwise allocate (fresh-nil small buffer of capacity
64, or `growSlice` doubling).  Returns the buffer and an in-place flag. -/
def GoBuffer.write (b : GoBuffer) (p : List Nat) : GoBuffer × Bool :=
  if b.len + p.length ≤ b.arr.length then
    ({ arr := b.arr.take b.len ++ p ++ b.arr.drop (b.len + p.length),
       len := b.len + p.length }, true)
  else if b.arr.length = 0 ∧ p.length ≤ 64 then
    ({ arr := padZeros p 64, len := p.length }, false)
  else
    ({ arr := padZeros (b.arr.take b.len ++ p) (max (b.len + p.length) (2 * b.arr.length)),
       len := b.len + p.length }, false)

/-! ### The file tree (`File` in fs.go) -/

/-- One node of the namespace tree: name, directory flag, optional content
binding (`*Blob`; `none` models a nil pointer), ordered children. -/
inductive FsTree where
  | node : GoStr → Bool → Option GoBuffer → List FsTree → FsTree

def FsTree.name : FsTree → GoStr
  | .node n _ _ _ => n

def FsTree.dir : FsTree → Bool
  | .node _ d _ _ => d

def FsTree.blob : FsTree → Option GoBuffer
  | .node _ _ b _ => b

def FsTree.children : FsTree → List FsTree
  | .node _ _ _ _cs => _cs

def FsTree.withChildren : FsTree → List FsTree → FsTree
  | .node n d b _, cs => .node n d b cs

def FsTree.withBlob : FsTree → Option GoBuffer → FsTree
  | .node n d _ cs, b => .node n d b cs

/-- `NewTree`: stub root directory, name `/`, no blob. -/
def newTree : FsTree := FsTree.node ['/'] true none []

/-- `NewChild` builds this node: every child — directory or not — gets a fresh
blob with an empty body (`NewBlob` is called unconditionally). -/
def newNode (nm : GoStr) (isDir : Bool) : FsTree :=
  FsTree.node nm isDir (some { arr := [], len := 0 }) []

/-- The names of the immediate children (the `locals` computed by `Sync`). -/
def childNames (t : FsTree) : List GoStr := t.children.map FsTree.name

/-- The inner loop of `File.Search`: first child whose name equals `nm`. -/
def findChild : List FsTree → GoStr → Option FsTree
  | [], _ => none
  | c :: rest, nm => if c.name = nm then some c else findChild rest nm

/-- Index variant of `findChild`, used to embed the pointer identity of the
node `Search` returns (needed to translate the in-place mutation of `Insert`). -/
def findChildIdx : List FsTree → GoStr → Option Nat
  | [], _ => none
  | c :: rest, nm => if c.name = nm then some 0 else (findChildIdx rest nm).map (· + 1)

/-- The loop of `File.Search`.  NOTE (faithful to fs.go:97-107): the inner loop
ranges over `t.Children` — the receiver's (root's) children — at every segment,
not over the children of the node reached so far. -/
def searchLoop (t : FsTree) (found : FsTree) : List GoStr → Option FsTree
  | [] => some found
  | s :: rest =>
    match findChild t.children s with
    | some c => searchLoop t c rest
    | none => none

/-- `File.Search`: clean the path, split on slashes, drop the first piece,
then run the loop; `none` is the `could not find file` error. -/
def search (t : FsTree) (full : GoStr) : Option FsTree :=
  searchLoop t t ((splitSlash (clean full)).drop 1)

/-- A position in the tree as `Search` can produce it: the root itself, or a
direct child of the root (the flat inner loop never descends further). -/
def resolvePos (t : FsTree) : Option Nat → FsTree
  | none => t
  | some j => t.children.getD j t

/-- Position-returning `Search` (same loop, tracking which node `found` is). -/
def searchIdxLoop (t : FsTree) (acc : Option Nat) : List GoStr → Option (Option Nat)
  | [] => some acc
  | s :: rest =>
    match findChildIdx t.children s with
    | some j => searchIdxLoop t (some j) rest
    | none => none

def searchIdx (t : FsTree) (full : GoStr) : Option (Option Nat) :=
  searchIdxLoop t none ((splitSlash (clean full)).drop 1)

/-- Replace the node at a `Search` position (embeds Go's through-pointer
mutation of the parent found by `Insert`). -/
def updatePos (t : FsTree) (pos : Option Nat) (g : FsTree → FsTree) : FsTree :=
  match pos with
  | none => g t
  | some j => t.withChildren (t.children.set j (g (t.children.getD j t)))

/-- Errors of the embedded operations (Go returns `error` values / `io.EOF`). -/
inductive Err where
  | eof
  | parentNotFound
  | alreadyExists
  | remoteListError
  | syncInsertError
  | uploadFailed
  | nilPanic
  deriving Repr, DecidableEq

/-- `File.Insert`: split into (parent, name); root parent short-circuits the
search; duplicate sibling names are rejected; otherwise `NewChild` appends. -/
def insertTree (t : FsTree) (full : GoStr) (isDir : Bool) : Except Err FsTree :=
  let pr := pathSplit full
  let pos? : Option (Option Nat) :=
    if pr.1 = ['/'] then some none else searchIdx t pr.1
  match pos? with
  | none => Except.error Err.parentNotFound
  | some pos =>
    if (findChild (resolvePos t pos).children pr.2).isSome then
      Except.error Err.alreadyExists
    else
      Except.ok (updatePos t pos
        (fun par => par.withChildren (par.children ++ [newNode pr.2 isDir])))

/-! ### The remote store and whole-system state

The Azure collaborator is specified only at its interface (§6 of the spec):
`listObjects`, `downloadObject`, `uploadObject`.  It is modelled as an
association list of objects plus two health flags controlling whether the
list call and the upload call succeed. -/

structure Remote where
  listOk : Bool
  uploadOk : Bool
  objects : List (GoStr × List Nat)

/-- `uploadObject`: store-or-replace under the blob's name. -/
def assocSet : List (GoStr × List Nat) → GoStr → List Nat → List (GoStr × List Nat)
  | [], k, v => [(k, v)]
  | (k0, v0) :: rest, k, v =>
    if k0 = k then (k, v) :: rest else (k0, v0) :: assocSet rest k v

/-- `downloadObject`: look up a blob's bytes by name. -/
def assocGet : List (GoStr × List Nat) → GoStr → Option (List Nat)
  | [], _ => none
  | (k0, v0) :: rest, k => if k0 = k then some v0 else assocGet rest k

/-- `ListBlobs`: all remote names, or the `RemoteListError`. -/
def Remote.names (r : Remote) : List GoStr := r.objects.map Prod.fst

/-- The whole mutable state the Go process carries: the tree rooted at
`Server.File`, the remote container, and the process-wide global
`ReaddirOffset` (fs.go:27). -/
structure SysState where
  root : FsTree
  remote : Remote
  readdirOffset : Nat

/-- Modelled from the spec: `missingLocally` lives in a source file that is
not in the repository snapshot; §4.3 specifies it as
`missing = remoteNames - localNames`. -/
def missingLocally (locals remotes : List GoStr) : List GoStr :=
  remotes.filter (fun r => ¬ locals.contains r)

/-- The insert loop of `File.Sync`: `t.srv.Insert("/"+name, false)` for each
missing name (modelled from the spec, §4.3/§4.4: the service create delegates
to the tree insert), aborting — with earlier inserts already committed — on
the first insert error. -/
def syncInserts (t : FsTree) : List GoStr → FsTree × Option Err
  | [] => (t, none)
  | nm :: rest =>
    match insertTree t ('/' :: nm) false with
    | .error _ => (t, some Err.syncInsertError)
    | .ok t' => syncInserts t' rest

/-- `File.Sync` (fs.go:58-84): list the remote blobs (surfacing a list failure),
diff against the root's immediate child names, insert each missing name as a
non-directory directly under the root. -/
def sync (st : SysState) : SysState × Option Err :=
  if st.remote.listOk then
    let diff := missingLocally (childNames st.root) st.remote.names
    let pr := syncInserts st.root diff
    ({ st with root := pr.1 }, pr.2)
  else
    (st, some Err.remoteListError)

/-- Overwrite the blob of the root's `idx`-th child (embeds mutating
`f.Blob.body` through the shared pointer). -/
def setBlobAt : List FsTree → Nat → GoBuffer → List FsTree
  | [], _, _ => []
  | c :: rest, 0, B => c.withBlob (some B) :: rest
  | c :: rest, n + 1, B => c :: setBlobAt rest n B

def SysState.setChildBlob (st : SysState) (idx : Nat) (B : GoBuffer) : SysState :=
  { st with root := st.root.withChildren (setBlobAt st.root.children idx B) }

/-- `Blob.Upload`: push the buffer's bytes to the remote under the blob's name
(`NewBlob(&child.name, ...)` keys blobs by the entry's singleton name). -/
def SysState.uploadBlob (st : SysState) (nm : GoStr) (data : List Nat) : SysState :=
  { st with remote := { st.remote with objects := assocSet st.remote.objects nm data } }

/-- Result of `File.WriteAt`. -/
structure WriteRes where
  st : SysState
  n : Nat
  err : Option Err

/-- `File.WriteAt` (fs.go:222-259) on the root's `idx`-th child.  Faithful
points: the `Sync` error is discarded; `buf := f.Blob.Contents()` is a slice
ALIASING the buffer's backing array, so the rollback's `Write(buf)` re-reads
that array as mutated by the in-place truncate-and-write; on upload failure the
return is `(0, err)`; on success `(len(p), nil)`.  `nilPanic` stands for the
nil-pointer panic a blob-less entry (only the root) would cause. -/
def writeAt (st : SysState) (idx : Nat) (p : List Nat) (off : Nat) : WriteRes :=
  let st1 := (sync st).1
  match st1.root.children[idx]? with
  | none => ⟨st1, 0, some Err.nilPanic⟩
  | some f =>
    match f.blob with
    | none => ⟨st1, 0, some Err.nilPanic⟩
    | some B =>
      if off > B.len then ⟨st1, 0, some Err.eof⟩
      else
        let B1 := if off < B.len then B.truncate off else B
        let wr := B1.write p
        let stW := st1.setChildBlob idx wr.1
        if st1.remote.uploadOk then
          ⟨stW.uploadBlob f.name wr.1.bytes, p.length, none⟩
        else
          let aliased := if wr.2 then wr.1.arr.take B.len else B.arr.take B.len
          let B3 := (wr.1.reset.write aliased).1
          ⟨st1.setChildBlob idx B3, 0, some Err.uploadFailed⟩

/-- `File.IsDir`: syncs (error discarded), then reads the flag. -/
def isDirOp (st : SysState) (idx : Nat) : SysState × Bool :=
  let st1 := (sync st).1
  match st1.root.children[idx]? with
  | none => (st1, false)
  | some f => (st1, f.dir)

/-- `File.Size` (fs.go:303-317): syncs, and for a directory returns 0
("a directory does not have size"); for a regular entry the length of the
current buffer contents.  The `getD` default models the nil-blob case, which
only the root — a directory — could reach. -/
def sizeOp (st : SysState) (idx : Nat) : SysState × Nat :=
  let st1 := (sync st).1
  let pr := isDirOp st1 idx
  if pr.2 then (pr.1, 0)
  else
    match pr.1.root.children[idx]? with
    | none => (pr.1, 0)
    | some f => (pr.1, (f.blob.getD { arr := [], len := 0 }).bytes.length)

/-- Result of `File.ReadAt`. -/
structure ReadRes where
  st : SysState
  data : List Nat
  err : Option Err

/-- `File.ReadAt` (fs.go:262-284): sync (error discarded); `Download` replaces
the buffer with the remote bytes (`Reset` + `ReadFrom`, whose error is also
discarded; a missing remote object nil-panics on `resp.Body`); then the
`offset >= Size()` EOF guard, then `copy(p, buf[offset:])` into a destination
of length `dstLen`. -/
def readAt (st : SysState) (idx : Nat) (dstLen : Nat) (off : Nat) : ReadRes :=
  let st1 := (sync st).1
  match st1.root.children[idx]? with
  | none => ⟨st1, [], some Err.nilPanic⟩
  | some f =>
    match f.blob with
    | none => ⟨st1, [], some Err.nilPanic⟩
    | some B =>
      match assocGet st1.remote.objects f.name with
      | none => ⟨st1, [], some Err.nilPanic⟩
      | some content =>
        let B1 := (B.reset.write content).1
        let st2 := st1.setChildBlob idx B1
        let pr := sizeOp st2 idx
        if off ≥ pr.2 then ⟨pr.1, [], some Err.eof⟩
        else
          match pr.1.root.children[idx]? with
          | none => ⟨pr.1, [], some Err.nilPanic⟩
          | some f2 =>
            match f2.blob with
            | none => ⟨pr.1, [], some Err.nilPanic⟩
            | some B2 => ⟨pr.1, (B2.bytes.drop off).take dstLen, none⟩

/-- Result of `File.Readdir`: the page, the error (`io.EOF` doubles as the
done flag), and whether the reset channel was signalled. -/
structure ReaddirRes where
  st : SysState
  infos : List FsTree
  err : Option Err
  resetSignal : Bool

/-- `File.Readdir` (fs.go:362-399) on the directory at `pos` (the root or one
of its children).  Faithful points: the offset is the process-wide global
`ReaddirOffset`, read and written by every call on every directory; `n <= 0`
lists everything; the loop bound is `i < n && i < len(children)` — `n` itself,
not `offset + n`. -/
def readdir (st : SysState) (pos : Option Nat) (n : Int) : ReaddirRes :=
  let st1 := (sync st).1
  let cs := (resolvePos st1.root pos).children
  if cs.length = 0 then ⟨st1, [], some Err.eof, false⟩
  else if st1.readdirOffset ≥ cs.length then ⟨st1, [], some Err.eof, true⟩
  else
    let m : Int := if n ≤ 0 then (cs.length : Int) else n
    let off := st1.readdirOffset
    let stop : Nat := min m.toNat cs.length
    let newOff := max off stop
    let infos := (cs.drop off).take (stop - off)
    let err := if newOff ≥ cs.length then some Err.eof else none
    ⟨{ st1 with readdirOffset := newOff }, infos, err, false⟩

/-! ### Spec-side definitions and concrete scenario states -/

/-- Follows the spec's words for `search` (§4.1): walk from the root matching
one segment against the CURRENT node's children by exact name, descending into
the match; fail at the first unmatched segment. -/
def searchSpecWalk : FsTree → List GoStr → Option FsTree
  | t, [] => some t
  | t, s :: rest =>
    match findChild t.children s with
    | some c => searchSpecWalk c rest
    | none => none

/-- Follows the spec's words: the segments of the cleaned path are its
nonempty slash-separated pieces — zero of them for the root path. -/
def searchSpec (t : FsTree) (full : GoStr) : Option FsTree :=
  searchSpecWalk t ((splitSlash (clean full)).filter (fun s => !s.isEmpty))

/-- What the source's flat loop computes, stated without the running
accumulator: every segment must name some child of the RECEIVER, and the
result is the receiver's child named by the LAST segment (the receiver itself
when there are no segments). -/
def searchFlat (t : FsTree) (segs : List GoStr) : Option FsTree :=
  if segs.all (fun s => (findChild t.children s).isSome) then
    match segs.getLast? with
    | none => some t
    | some s => findChild t.children s
  else none

/-- A one-file system state: the root holds a single regular entry `nm` whose
buffer is `B`; the remote container holds the one object `nm ↦ c`; listing
always succeeds, uploading succeeds iff `up`. -/
def oneFileState (nm : GoStr) (B : GoBuffer) (c : List Nat) (up : Bool) : SysState :=
  ⟨FsTree.node ['/'] true none [FsTree.node nm false (some B) []],
   ⟨true, up, [(nm, c)]⟩, 0⟩

/-- C1 scenario, before: a fresh entry `f` with an empty buffer. -/
def stC1pre : SysState := oneFileState (gs "f") ⟨[], 0⟩ [] true

/-- C1 scenario, after a successful `WriteAt([10,20], 0)` — the buffer holds
`[10,20]` in a capacity-64 backing array, the remote holds `[10,20]` — with
the upload path now made to fail deterministically. -/
def stC1mid : SysState :=
  oneFileState (gs "f") ⟨[10, 20] ++ List.replicate 62 0, 2⟩ [10, 20] false

/-- Concrete regular entries used in the scenario states. -/
def fX0 : FsTree := FsTree.node (gs "x0") false (some ⟨[], 0⟩) []

def fX1 : FsTree := FsTree.node (gs "x1") false (some ⟨[], 0⟩) []

def fB1 : FsTree := FsTree.node (gs "b1") false (some ⟨[], 0⟩) []

/-- C2 scenario: a directory `a` (no children) and a regular entry `b`, both
directly under the root. -/
def cexA : FsTree := FsTree.node (gs "a") true (some ⟨[], 0⟩) []

def cexB : FsTree := FsTree.node (gs "b") false (some ⟨[], 0⟩) []

def cexTree : FsTree := FsTree.node (gs "/") true none [cexA, cexB]

/-- C3 scenario: one directory `d` with two children; empty remote listing so
`Sync` is a no-op. -/
def stC3cex : SysState :=
  ⟨FsTree.node (gs "/") true none [FsTree.node (gs "d") true (some ⟨[], 0⟩) [fX0, fX1]],
   ⟨true, true, []⟩, 0⟩

/-- C3 scenario after the first page call: the global offset is 1. -/
def stC3mid : SysState :=
  ⟨FsTree.node (gs "/") true none [FsTree.node (gs "d") true (some ⟨[], 0⟩) [fX0, fX1]],
   ⟨true, true, []⟩, 1⟩

/-- C4 counterexample scenario: empty tree, remote listing containing the
nested name `a/b`. -/
def stC4bad : SysState := ⟨newTree, ⟨true, true, [(gs "a/b", [])]⟩, 0⟩

/-- C4 witness scenario: one local entry `f`, remote listing `f, g`. -/
def stW4 : SysState :=
  ⟨FsTree.node (gs "/") true none [FsTree.node (gs "f") false (some ⟨[], 0⟩) []],
   ⟨true, true, [(gs "f", []), (gs "g", [1])]⟩, 0⟩

/-- C5 counterexample scenario: the remote listing fails. -/
def stC5cex : SysState :=
  ⟨FsTree.node (gs "/") true none [FsTree.node (gs "f") false (some ⟨[], 0⟩) []],
   ⟨false, true, []⟩, 0⟩

/-- C9 counterexample scenario: a directory `d` with exactly one child. -/
def stC9cex : SysState :=
  ⟨FsTree.node (gs "/") true none [FsTree.node (gs "d") true (some ⟨[], 0⟩) [fX0]],
   ⟨true, true, []⟩, 0⟩

/-- C10 scenario: two directories `A` (children `a1`, `a2`) and `B`
(child `b1`) under the root; empty remote listing. -/
def dirA : FsTree := FsTree.node (gs "A") true (some ⟨[], 0⟩)
  [FsTree.node (gs "a1") false (some ⟨[], 0⟩) [], FsTree.node (gs "a2") false (some ⟨[], 0⟩) []]

def dirB : FsTree := FsTree.node (gs "B") true (some ⟨[], 0⟩) [fB1]

def stC10cex : SysState := ⟨FsTree.node (gs "/") true none [dirA, dirB], ⟨true, true, []⟩, 0⟩

/-! ### Basic lemmas: tree accessors -/

@[simp] theorem FsTree.name_node (n : GoStr) (d : Bool) (b : Option GoBuffer)
    (cs : List FsTree) : (FsTree.node n d b cs).name = n := rfl

@[simp] theorem FsTree.dir_node (n : GoStr) (d : Bool) (b : Option GoBuffer)
    (cs : List FsTree) : (FsTree.node n d b cs).dir = d := rfl

@[simp] theorem FsTree.blob_node (n : GoStr) (d : Bool) (b : Option GoBuffer)
    (cs : List FsTree) : (FsTree.node n d b cs).blob = b := rfl

@[simp] theorem FsTree.children_node (n : GoStr) (d : Bool) (b : Option GoBuffer)
    (cs : List FsTree) : (FsTree.node n d b cs).children = cs := rfl

@[simp] theorem FsTree.name_withChildren (t : FsTree) (cs : List FsTree) :
    (t.withChildren cs).name = t.name := by cases t; rfl

@[simp] theorem FsTree.dir_withChildren (t : FsTree) (cs : List FsTree) :
    (t.withChildren cs).dir = t.dir := by cases t; rfl

@[simp] theorem FsTree.blob_withChildren (t : FsTree) (cs : List FsTree) :
    (t.withChildren cs).blob = t.blob := by cases t; rfl

@[simp] theorem FsTree.children_withChildren (t : FsTree) (cs : List FsTree) :
    (t.withChildren cs).children = cs := by cases t; rfl

@[simp] theorem FsTree.name_withBlob (t : FsTree) (b : Option GoBuffer) :
    (t.withBlob b).name = t.name := by cases t; rfl

@[simp] theorem FsTree.dir_withBlob (t : FsTree) (b : Option GoBuffer) :
    (t.withBlob b).dir = t.dir := by cases t; rfl

@[simp] theorem FsTree.blob_withBlob (t : FsTree) (b : Option GoBuffer) :
    (t.withBlob b).blob = b := by cases t; rfl

@[simp] theorem FsTree.children_withBlob (t : FsTree) (b : Option GoBuffer) :
    (t.withBlob b).children = t.children := by cases t; rfl

@[simp] theorem newNode_name (nm : GoStr) (d : Bool) : (newNode nm d).name = nm := rfl

@[simp] theorem newNode_dir (nm : GoStr) (d : Bool) : (newNode nm d).dir = d := rfl

@[simp] theorem newNode_blob (nm : GoStr) (d : Bool) :
    (newNode nm d).blob = some { arr := [], len := 0 } := rfl

/-! ### Lemmas about the buffer model -/

/-- What `Truncate(off)` followed by `Write(p)` leaves as contents: the first
`off` old bytes, then `p` — in every branch of `write`. -/
theorem write_truncate_bytes (B : GoBuffer) (p : List Nat) (off : Nat)
    (h1 : off ≤ B.len) (h2 : off ≤ B.arr.length) :
    ((if off < B.len then B.truncate off else B).write p).1.bytes =
      B.bytes.take off ++ p := by
  have hB1 : (if off < B.len then B.truncate off else B) = ⟨B.arr, off⟩ := by
    split
    · rfl
    · have h : off = B.len := le_antisymm h1 (not_lt.1 (by assumption))
      cases B
      simp_all
  have hlen : (B.arr.take off).length = off := by
    simp [List.length_take, Nat.min_eq_left h2]
  have hbytes : B.bytes.take off = B.arr.take off := by
    simp [GoBuffer.bytes, List.take_take, Nat.min_eq_left h1]
  rw [hB1, hbytes]
  show (GoBuffer.write ⟨B.arr, off⟩ p).1.bytes = _
  simp only [GoBuffer.write]
  split_ifs with hfit hnil
  · simp only [GoBuffer.bytes, ← List.append_assoc]
    exact List.take_left' (by simp [hlen])
  · have harr : B.arr = [] := List.length_eq_zero.1 hnil.1
    have hoff : off = 0 := by
      rw [harr] at h2
      simpa using h2
    simp [GoBuffer.bytes, padZeros, hoff, harr, List.take_left' rfl]
  · simp only [GoBuffer.bytes, padZeros, ← List.append_assoc]
    exact List.take_left' (by simp [hlen])

/-- `Reset` then `Write(p)` leaves exactly `p` as contents (the shape of a
`Download`'s `Reset` + `ReadFrom`, and of the write rollback). -/
theorem reset_write_bytes (B : GoBuffer) (p : List Nat) :
    (B.reset.write p).1.bytes = p := by
  have h := write_truncate_bytes ⟨B.arr, 0⟩ p 0 (Nat.le_refl 0) (Nat.zero_le _)
  simpa [GoBuffer.reset, GoBuffer.bytes] using h

/-! ### Lemmas about `findChild` -/

theorem findChild_append (cs ds : List FsTree) (nm : GoStr) :
    findChild (cs ++ ds) nm = (findChild cs nm).or (findChild ds nm) := by
  induction cs with
  | nil => simp [findChild]
  | cons c rest ih =>
    by_cases h : c.name = nm <;> simp [findChild, h, ih]

theorem findChild_eq_none (cs : List FsTree) (nm : GoStr) :
    findChild cs nm = none ↔ nm ∉ cs.map FsTree.name := by
  induction cs with
  | nil => simp [findChild]
  | cons c rest ih =>
    simp only [findChild, List.map_cons, List.mem_cons]
    by_cases h : c.name = nm
    · simp [h]
    · simp only [h, if_false, ih]
      constructor
      · intro hn hor
        rcases hor with h1 | h2
        · exact h h1.symm
        · exact hn h2
      · intro hn h2
        exact hn (Or.inr h2)

theorem findChild_name {cs : List FsTree} {nm : GoStr} {c : FsTree}
    (h : findChild cs nm = some c) : c.name = nm := by
  induction cs with
  | nil => simp [findChild] at h
  | cons c0 rest ih =>
    by_cases h0 : c0.name = nm
    · simp [findChild, h0] at h
      rw [← h, h0]
    · simp [findChild, h0] at h
      exact ih h

theorem findChild_isSome (cs : List FsTree) (nm : GoStr) :
    (findChild cs nm).isSome ↔ nm ∈ cs.map FsTree.name := by
  rw [Option.isSome_iff_ne_none, ne_eq, findChild_eq_none, not_not]

/-! ### Lemmas about `setBlobAt` -/

theorem setBlobAt_getElem?_self :
    ∀ (cs : List FsTree) (i : Nat) (B : GoBuffer) (c : FsTree),
      cs[i]? = some c → (setBlobAt cs i B)[i]? = some (c.withBlob (some B))
  | [], i, B, c, h => by simp at h
  | c0 :: rest, 0, B, c, h => by
    simp at h
    simp [setBlobAt, h]
  | c0 :: rest, i + 1, B, c, h => by
    simp at h
    simpa [setBlobAt] using setBlobAt_getElem?_self rest i B c h

theorem setBlobAt_getElem?_ne :
    ∀ (cs : List FsTree) (i : Nat) (B : GoBuffer) (j : Nat), i ≠ j →
      (setBlobAt cs i B)[j]? = cs[j]?
  | [], _, _, _, _ => by simp [setBlobAt]
  | c0 :: rest, 0, B, 0, h => absurd rfl h
  | c0 :: rest, 0, B, j + 1, _ => by simp [setBlobAt]
  | c0 :: rest, i + 1, B, 0, _ => by simp [setBlobAt]
  | c0 :: rest, i + 1, B, j + 1, h => by
    simpa [setBlobAt] using setBlobAt_getElem?_ne rest i B j (by omega)

/-! ### Structural preservation: `Sync` never touches an existing root child's
name, kind or blob (it can only append new children, or append grandchildren
under a root child via a slash-containing remote name). -/

/-- `t'` preserves each existing root-child slot of `t` (same name, kind and
blob pointer; the grandchildren may differ). -/
def Preserves (t t' : FsTree) : Prop :=
  ∀ (i : Nat) (f : FsTree), t.children[i]? = some f →
    ∃ g : FsTree, t'.children[i]? = some g ∧
      g.name = f.name ∧ g.dir = f.dir ∧ g.blob = f.blob

theorem Preserves.refl (t : FsTree) : Preserves t t := by
  intro i f h
  exact ⟨f, h, rfl, rfl, rfl⟩

theorem Preserves.trans {a b c : FsTree} (h1 : Preserves a b) (h2 : Preserves b c) :
    Preserves a c := by
  intro i f h
  obtain ⟨g, hg, hn, hd, hb⟩ := h1 i f h
  obtain ⟨g', hg', hn', hd', hb'⟩ := h2 i g hg
  exact ⟨g', hg', hn'.trans hn, hd'.trans hd, hb'.trans hb⟩

theorem insertTree_preserves {t t' : FsTree} {full : GoStr} {d : Bool}
    (h : insertTree t full d = Except.ok t') : Preserves t t' := by
  intro i f hf
  have hi : i < t.children.length := (List.getElem?_eq_some.1 hf).1
  unfold insertTree at h
  simp only [] at h
  rcases hpos : (if (pathSplit full).1 = ['/'] then some none
      else searchIdx t (pathSplit full).1) with _ | pos
  · rw [hpos] at h
    simp at h
  · rw [hpos] at h
    by_cases hdup : (findChild (resolvePos t pos).children (pathSplit full).2).isSome
    · simp [hdup] at h
    · simp [hdup] at h
      subst h
      cases pos with
      | none =>
        refine ⟨f, ?_, rfl, rfl, rfl⟩
        simp [updatePos, List.getElem?_append, hi, hf]
      | some j =>
        by_cases hij : j = i
        · subst hij
          have hgd : t.children.getD j t = f := by
            simp [List.getD_eq_getElem?_getD, hf]
          refine ⟨(t.children.getD j t).withChildren
              ((t.children.getD j t).children ++ [newNode (pathSplit full).2 d]), ?_, ?_, ?_, ?_⟩
          · simp [updatePos, List.getElem?_set_eq_of_lt _ hi]
          · simp [List.getD_eq_getElem?_getD, hf]
          · simp [List.getD_eq_getElem?_getD, hf]
          · simp [List.getD_eq_getElem?_getD, hf]
        · refine ⟨f, ?_, rfl, rfl, rfl⟩
          simp [updatePos, List.getElem?_set_ne hij, hf]

theorem syncInserts_preserves :
    ∀ (names : List GoStr) (t : FsTree), Preserves t (syncInserts t names).1
  | [], t => Preserves.refl t
  | nm :: rest, t => by
    unfold syncInserts
    rcases hins : insertTree t ('/' :: nm) false with e | t'
    · exact Preserves.refl t
    · exact (insertTree_preserves hins).trans (syncInserts_preserves rest t')

theorem sync_preserves (st : SysState) : Preserves st.root ((sync st).1).root := by
  unfold sync
  by_cases h : st.remote.listOk
  · simpa [h] using
      syncInserts_preserves (missingLocally (childNames st.root) st.remote.names) st.root
  · simp [h]
    exact Preserves.refl st.root

@[simp] theorem sync_remote (st : SysState) : ((sync st).1).remote = st.remote := by
  unfold sync
  by_cases h : st.remote.listOk <;> simp [h]

@[simp] theorem sync_readdirOffset (st : SysState) :
    ((sync st).1).readdirOffset = st.readdirOffset := by
  unfold sync
  by_cases h : st.remote.listOk <;> simp [h]

/-! ### Path lemmas for flat (slash-free) names -/

/-- A remote object name the flat reconciliation can actually handle: nonempty,
slash-free, and not one of the dot segments `path.Clean` rewrites. -/
def goodName (nm : GoStr) : Prop :=
  nm ≠ [] ∧ '/' ∉ nm ∧ nm ≠ ['.'] ∧ nm ≠ ['.', '.']

instance decidableGoodName (nm : GoStr) : Decidable (goodName nm) :=
  inferInstanceAs (Decidable (nm ≠ [] ∧ '/' ∉ nm ∧ nm ≠ ['.'] ∧ nm ≠ ['.', '.']))

theorem splitSlash_no_slash {nm : GoStr} (h : '/' ∉ nm) : splitSlash nm = [nm] := by
  induction nm with
  | nil => rfl
  | cons c rest ih =>
    have hc : ¬(c = '/') := fun hc => h (hc ▸ List.mem_cons_self c rest)
    have hr : '/' ∉ rest := fun hr => h (List.mem_cons_of_mem c hr)
    simp [splitSlash, hc, ih hr]

theorem clean_rooted_good {nm : GoStr} (h : goodName nm) : clean ('/' :: nm) = '/' :: nm := by
  obtain ⟨h1, h2, h3, h4⟩ := h
  have hs : splitSlash nm = [nm] := splitSlash_no_slash h2
  simp [clean, splitSlash, hs, cleanStep, segJoin, h1, h3, h4]

theorem pathSplit_rooted_good {nm : GoStr} (h2 : '/' ∉ nm) :
    pathSplit ('/' :: nm) = (['/'], nm) := by
  have hall : ∀ x ∈ nm.reverse, (!(x = '/' : Bool)) = true := by
    intro x hx
    have : x ≠ '/' := fun he => h2 (he ▸ List.mem_reverse.1 hx)
    simpa using this
  have htw : List.takeWhile (fun c => !(c = '/' : Bool)) nm.reverse = nm.reverse :=
    List.takeWhile_eq_self_iff.2 hall
  have hsplit : List.takeWhile (fun c => !(c = '/' : Bool)) (nm.reverse ++ ['/']) =
      nm.reverse := by
    rw [List.takeWhile_append]
    simp [htw, List.takeWhile]
  simp [pathSplit, List.reverse_cons, hsplit, htw, List.drop_left]

/-- `Search` on a rooted slash-free path reduces to one lookup among the
receiver's children. -/
theorem search_rooted_good {nm : GoStr} (t : FsTree) (h : goodName nm) :
    search t ('/' :: nm) = findChild t.children nm := by
  have hs : splitSlash nm = [nm] := splitSlash_no_slash h.2.1
  rw [search, clean_rooted_good h]
  simp only [splitSlash, if_pos rfl, hs]
  show searchLoop t t [nm] = findChild t.children nm
  rcases hf : findChild t.children nm with _ | c <;> simp [searchLoop, hf]

/-- `Insert` of a rooted slash-free fresh name appends a `NewChild` to the
root's children. -/
theorem insertTree_root_good {nm : GoStr} {t : FsTree} (h : goodName nm)
    (hfree : findChild t.children nm = none) :
    insertTree t ('/' :: nm) false =
      Except.ok (t.withChildren (t.children ++ [newNode nm false])) := by
  unfold insertTree
  simp only [pathSplit_rooted_good h.2.1]
  simp [resolvePos, hfree, updatePos]

/-! ### Characterizing `Sync` -/

theorem findChild_newNodes (names : List GoStr) (nm : GoStr) :
    findChild (names.map (fun s => newNode s false)) nm =
      if nm ∈ names then some (newNode nm false) else none := by
  induction names with
  | nil => simp [findChild]
  | cons s rest ih =>
    by_cases h : s = nm
    · subst h
      simp [findChild]
    · simp only [List.map_cons, findChild, newNode_name, h, if_false, ih, List.mem_cons]
      have hne : ¬ nm = s := fun he => h he.symm
      simp [hne]

theorem syncInserts_good :
    ∀ (names : List GoStr) (t : FsTree),
      (∀ nm ∈ names, goodName nm) → names.Nodup →
      (∀ nm ∈ names, findChild t.children nm = none) →
      syncInserts t names =
        (t.withChildren (t.children ++ names.map (fun s => newNode s false)), none)
  | [], t, _, _, _ => by
    cases t
    simp [syncInserts, FsTree.withChildren]
  | nm :: rest, t, hgood, hnd, hfree => by
    have hins := insertTree_root_good (hgood nm (List.mem_cons_self nm rest))
      (hfree nm (List.mem_cons_self nm rest))
    have hrest : ∀ s ∈ rest, findChild
        (t.withChildren (t.children ++ [newNode nm false])).children s = none := by
      intro s hs
      have hne : nm ≠ s := fun he => (List.nodup_cons.1 hnd).1 (he ▸ hs)
      rw [FsTree.children_withChildren, findChild_append,
        hfree s (List.mem_cons_of_mem nm hs)]
      simp [findChild, hne]
    have ih := syncInserts_good rest (t.withChildren (t.children ++ [newNode nm false]))
      (fun s hs => hgood s (List.mem_cons_of_mem nm hs)) (List.nodup_cons.1 hnd).2 hrest
    unfold syncInserts
    rw [hins]
    show syncInserts (t.withChildren (t.children ++ [newNode nm false])) rest = _
    rw [ih]
    cases t
    simp [FsTree.withChildren, List.append_assoc]

/-- The tree `Sync` leaves behind on a sane remote listing: the old root with
one `NewChild` appended per missing remote name, in remote-listing order. -/
def syncResultRoot (st : SysState) : FsTree :=
  st.root.withChildren (st.root.children ++
    (missingLocally (childNames st.root) st.remote.names).map (fun s => newNode s false))

/-- What `Sync` does when every remote name is sane: appends one `NewChild` per
missing name, in remote-listing order, and reports no error. -/
theorem sync_good (st : SysState)
    (hlist : st.remote.listOk = true)
    (hgood : ∀ nm ∈ st.remote.names, goodName nm)
    (hnd : st.remote.names.Nodup) :
    sync st = ({ st with root := syncResultRoot st }, none) := by
  have hmem : ∀ nm ∈ missingLocally (childNames st.root) st.remote.names,
      nm ∈ st.remote.names ∧ nm ∉ childNames st.root := by
    intro nm hm
    obtain ⟨hin, hp⟩ := List.mem_filter.1 hm
    refine ⟨hin, ?_⟩
    intro hmemc
    simp only [decide_eq_true_eq, List.contains] at hp
    exact hp (List.elem_iff.2 hmemc)
  have hgood' : ∀ nm ∈ missingLocally (childNames st.root) st.remote.names, goodName nm :=
    fun nm hm => hgood nm (hmem nm hm).1
  have hnd' : (missingLocally (childNames st.root) st.remote.names).Nodup :=
    List.Nodup.filter _ hnd
  have hfree : ∀ nm ∈ missingLocally (childNames st.root) st.remote.names,
      findChild st.root.children nm = none :=
    fun nm hm => (findChild_eq_none _ _).2 (hmem nm hm).2
  unfold sync
  rw [hlist]
  simp only [if_true]
  rw [syncInserts_good _ _ hgood' hnd' hfree]
  rfl

/-- When every remote name is already a root child, `Sync` is the identity. -/
theorem sync_id_of_subset (st : SysState) (hlist : st.remote.listOk = true)
    (hsub : ∀ nm ∈ st.remote.names, nm ∈ childNames st.root) :
    sync st = (st, none) := by
  have hdiff : missingLocally (childNames st.root) st.remote.names = [] := by
    rw [missingLocally, List.filter_eq_nil_iff]
    intro nm hnm
    simp only [decide_eq_true_eq, List.contains, not_not]
    exact List.elem_iff.2 (hsub nm hnm)
  unfold sync
  rw [hlist]
  simp only [if_true, hdiff, syncInserts]

/-! ### Claim C2: path resolution -/

theorem searchLoop_flat (t : FsTree) :
    ∀ (segs : List GoStr) (found : FsTree),
      searchLoop t found segs =
        if segs.all (fun s => (findChild t.children s).isSome) then
          match segs.getLast? with
          | none => some found
          | some s => findChild t.children s
        else none
  | [], found => by simp [searchLoop]
  | [s], found => by
    rcases hf : findChild t.children s with _ | c <;> simp [searchLoop, hf]
  | s :: s2 :: rest2, found => by
    rcases hf : findChild t.children s with _ | c
    · simp [searchLoop, hf]
    · have hsome : ((s2 :: rest2).getLast?).isSome := by
        simp [List.getLast?_isSome]
      obtain ⟨v, hlast⟩ := Option.isSome_iff_exists.1 hsome
      have ih := searchLoop_flat t (s2 :: rest2) c
      have hstep : searchLoop t found (s :: s2 :: rest2) = searchLoop t c (s2 :: rest2) := by
        rw [searchLoop, hf]
      rw [hstep, ih]
      simp [List.all_cons, hf, List.getLast?_cons_cons, hlast]

/-- Claim C2 (counterexample): the spec's walk and the code disagree.  For the
root path `/` the code produces one empty segment and fails where the spec
resolves the root; for `/a/b` with `b` a child of the ROOT but not of `a`, the
code succeeds where the spec's walk fails. -/
theorem c2_counterexample :
    search newTree (gs "/") = none ∧ searchSpec newTree (gs "/") = some newTree ∧
    search cexTree (gs "/a/b") = some cexB ∧ searchSpec cexTree (gs "/a/b") = none :=
  ⟨rfl, rfl, rfl, rfl⟩

/-- Claim C2 (amended): `search` splits the cleaned path on slashes and drops
the FIRST piece; each remaining segment is matched against the RECEIVER's
(root's) children — not the children of the node reached so far — and the
result is the root child named by the last segment (the root when no segments
remain); it fails at the first segment naming no root child.  In particular
the root path `/` yields one empty segment and fails. -/
theorem c2_search_is_flat (t : FsTree) (full : GoStr) :
    search t full = searchFlat t ((splitSlash (clean full)).drop 1) := by
  rw [search, searchLoop_flat]
  rfl

/-! ### Claim C4: reconciliation -/

/-- Claim C4 (counterexample): with the remote listing containing the nested
name `a/b` and an empty tree, `Sync` aborts with an insert error (the parent
`/a` does not resolve), the tree is unchanged, and `search` for the listed
name still fails afterwards — the claim's "search succeeds for any listed
name" does not hold for every remote listing. -/
theorem c4_counterexample :
    gs "a/b" ∈ stC4bad.remote.names ∧
    (sync stC4bad).2 = some Err.syncInsertError ∧
    (sync stC4bad).1 = stC4bad ∧
    search (sync stC4bad).1.root (gs "/a/b") = none :=
  ⟨by decide, rfl, rfl, rfl⟩

/-- Claim C4 (amended): for a duplicate-free remote listing of flat names
(nonempty, slash-free, not `.` or `..`), `Sync` reports no error and appends
exactly the missing names — remote names absent from the root's immediate
child names — as non-directory `NewChild` entries directly under the root, in
listing order; afterwards `search` of `/name` succeeds for every listed name. -/
theorem c4_sync_inserts_missing (st : SysState)
    (hlist : st.remote.listOk = true)
    (hgood : ∀ nm ∈ st.remote.names, goodName nm)
    (hnd : st.remote.names.Nodup) :
    (sync st).2 = none ∧
    ((sync st).1).root.children = st.root.children ++
      (missingLocally (childNames st.root) st.remote.names).map (fun s => newNode s false) ∧
    ∀ nm ∈ st.remote.names, ∃ g : FsTree,
      search ((sync st).1).root ('/' :: nm) = some g ∧ g.name = nm := by
  rw [sync_good st hlist hgood hnd]
  refine ⟨rfl, by simp [syncResultRoot], ?_⟩
  intro nm hmem
  rw [search_rooted_good _ (hgood nm hmem)]
  simp only [syncResultRoot, FsTree.children_withChildren]
  rw [findChild_append]
  rcases hc : findChild st.root.children nm with _ | c
  · have hnotin : nm ∉ childNames st.root := (findChild_eq_none _ _).1 hc
    have hdiff : nm ∈ missingLocally (childNames st.root) st.remote.names := by
      refine List.mem_filter.2 ⟨hmem, ?_⟩
      simp only [decide_eq_true_eq, List.contains]
      intro helem
      exact hnotin (List.elem_iff.1 helem)
    rw [findChild_newNodes]
    refine ⟨newNode nm false, ?_, rfl⟩
    simp [hdiff, Option.or]
  · exact ⟨c, by simp [Option.or], findChild_name hc⟩

/-- Claim C4 (witness): the amended theorem applied to a concrete state with a
local entry `f` and remote listing `f, g`. -/
theorem c4_witness :
    (sync stW4).2 = none ∧
    (∃ g : FsTree, search ((sync stW4).1).root ('/' :: gs "g") = some g ∧
      g.name = gs "g") := by
  have h := c4_sync_inserts_missing stW4 rfl (by decide) (by decide)
  exact ⟨h.1, h.2.2 (gs "g") (by decide)⟩

/-! ### Claim C3: paged directory listing -/

/-- Claim C3 (counterexample): directory `d` has two children, the page size is
1, and the global offset starts at 0.  The first call yields only `x0` without
EOF; the second call — there is no returned cursor to chain, the global offset
is simply consulted again — is a fixpoint: it returns an empty page, no EOF,
and leaves the state unchanged, so `x1` is never yielded and the sequence of
calls never reports done. -/
theorem c3_counterexample :
    (readdir stC3cex (some 0) 1).infos = [fX0] ∧
    (readdir stC3cex (some 0) 1).err = none ∧
    (readdir stC3cex (some 0) 1).st = stC3mid ∧
    readdir stC3mid (some 0) 1 = ⟨stC3mid, [], none, false⟩ :=
  ⟨rfl, rfl, rfl, rfl⟩

/-- Claim C3 (amended): only a single `Readdir` call whose page size is
non-positive ("list everything") or at least the child count, starting with
the process-wide offset at 0, yields every child exactly once in insertion
order and signals EOF in the same call; for a smaller positive page size the
first call returns the first `k` children and every later call returns an
empty page with no EOF, never yielding the rest. -/
theorem c3_single_call_lists_all (st : SysState) (pos : Option Nat) (k : Int)
    (hsync : (sync st).1 = st)
    (hoff : st.readdirOffset = 0)
    (hne : (resolvePos st.root pos).children ≠ [])
    (hk : k ≤ 0 ∨ ((resolvePos st.root pos).children.length : Int) ≤ k) :
    (readdir st pos k).infos = (resolvePos st.root pos).children ∧
    (readdir st pos k).err = some Err.eof := by
  have hlen : 0 < (resolvePos st.root pos).children.length := List.length_pos.2 hne
  have hstop : min (if k ≤ 0 then ((resolvePos st.root pos).children.length : Int)
      else k).toNat (resolvePos st.root pos).children.length =
      (resolvePos st.root pos).children.length := by
    rcases hk with hk | hk
    · simp [hk]
    · have hk0 : ¬ k ≤ 0 := by omega
      have hle : (resolvePos st.root pos).children.length ≤ k.toNat := by omega
      simp [hk0, Nat.min_eq_right hle]
  unfold readdir
  simp only [hsync, hoff]
  rw [if_neg (by omega), if_neg (by omega)]
  simp only [hstop]
  refine ⟨?_, ?_⟩
  · simp
  · simp

/-- Claim C3 (witness): a page size of 5 on the two-child directory `d` lists
both children and reports EOF in one call. -/
theorem c3_witness :
    (readdir stC3cex (some 0) 5).infos = [fX0, fX1] ∧
    (readdir stC3cex (some 0) 5).err = some Err.eof := by
  have h := c3_single_call_lists_all stC3cex (some 0) 5 rfl rfl
    (List.cons_ne_nil _ _) (Or.inr (by decide))
  exact ⟨h.1, h.2⟩

/-! ### Claim C10: the enumeration cursor is shared process state -/

/-- Claim C10 (counterexample): interleaving one page call on directory `A`
before enumerating directory `B` changes what `B`'s enumeration yields — run
alone its first page is `[b1]`, interleaved it is `[]`. -/
theorem c10_counterexample :
    (readdir stC10cex (some 1) 1).infos = [fB1] ∧
    (readdir (readdir stC10cex (some 0) 1).st (some 1) 1).infos = [] ∧
    (readdir (readdir stC10cex (some 0) 1).st (some 1) 1).infos ≠
      (readdir stC10cex (some 1) 1).infos := by
  refine ⟨rfl, rfl, fun h => ?_⟩
  have h' : ([] : List FsTree) = [fB1] := h
  exact List.noConfusion h'

/-- Claim C10 (amended): the cursor is the single process-wide variable
`ReaddirOffset`, shared by all enumerations: a page call on `A` advances it to
1, and a subsequent call on `B` — whose solo first page is `[b1]` with EOF —
reads that shared position, immediately reports EOF with an empty page, and
signals the reset channel.  Interleaved enumerations therefore observe and
corrupt each other's position. -/
theorem c10_shared_cursor_interference :
    stC10cex.readdirOffset = 0 ∧
    (readdir stC10cex (some 0) 1).st.readdirOffset = 1 ∧
    (readdir stC10cex (some 1) 1).infos = [fB1] ∧
    (readdir stC10cex (some 1) 1).err = some Err.eof ∧
    readdir (readdir stC10cex (some 0) 1).st (some 1) 1 =
      ⟨(readdir stC10cex (some 0) 1).st, [], some Err.eof, true⟩ :=
  ⟨rfl, rfl, rfl, rfl, rfl⟩

/-! ### Claim C5: reconciliation failures are not propagated -/

/-- Claim C5 (counterexample): with the remote listing failing, `WriteAt`
still runs to completion — it returns 1 byte written and no error (let alone
`RemoteListError`), and even uploads the data. -/
theorem c5_counterexample :
    stC5cex.remote.listOk = false ∧
    (sync stC5cex).2 = some Err.remoteListError ∧
    (writeAt stC5cex 0 [5] 0).err = none ∧
    (writeAt stC5cex 0 [5] 0).n = 1 ∧
    assocGet (writeAt stC5cex 0 [5] 0).st.remote.objects (gs "f") = some [5] :=
  ⟨rfl, rfl, rfl, rfl, rfl⟩

/-- Claim C5 (amended): every operation invokes `Sync` but discards its
result, so when the remote listing fails the reconciliation error is
swallowed: `Sync` itself reports `RemoteListError` and leaves the state
unchanged, while `WriteAt`, `ReadAt` and `Readdir` proceed against the stale
tree and never surface `RemoteListError` (and `Stat`/`Size` have no error
channel at all). -/
theorem c5_sync_error_ignored (st : SysState) (idx : Nat) (p : List Nat)
    (off dstLen : Nat) (pos : Option Nat) (k : Int)
    (hfail : st.remote.listOk = false) :
    (sync st).2 = some Err.remoteListError ∧
    (sync st).1 = st ∧
    (writeAt st idx p off).err ≠ some Err.remoteListError ∧
    (readAt st idx dstLen off).err ≠ some Err.remoteListError ∧
    (readdir st pos k).err ≠ some Err.remoteListError := by
  have hsync : sync st = (st, some Err.remoteListError) := by
    unfold sync
    rw [hfail]
    simp
  refine ⟨by rw [hsync], by rw [hsync], ?_, ?_, ?_⟩
  · unfold writeAt
    simp only [hsync]
    rcases h1 : st.root.children[idx]? with _ | f
    · simp [h1]
    · rcases h2 : f.blob with _ | B
      · simp [h1, h2]
      · by_cases h3 : off > B.len
        · simp [h1, h2, h3]
        · by_cases h4 : st.remote.uploadOk <;> simp [h1, h2, h3, h4]
  · unfold readAt
    simp only [hsync]
    repeat' split
    all_goals simp
  · unfold readdir
    simp only [hsync]
    repeat' split
    all_goals simp

/-- Claim C5 (witness): the amended theorem at the concrete failing-listing
state. -/
theorem c5_witness :
    (sync stC5cex).2 = some Err.remoteListError ∧
    (writeAt stC5cex 0 [5] 0).err ≠ some Err.remoteListError ∧
    (readAt stC5cex 0 1 0).err ≠ some Err.remoteListError ∧
    (readdir stC5cex none 1).err ≠ some Err.remoteListError := by
  have h := c5_sync_error_ignored stC5cex 0 [5] 0 1 none 1 rfl
  exact ⟨h.1, h.2.2.1, h.2.2.2.1, h.2.2.2.2⟩

/-! ### Claim C6: write-offset semantics -/

@[simp] theorem uploadBlob_root (st : SysState) (nm : GoStr) (d : List Nat) :
    (st.uploadBlob nm d).root = st.root := rfl

@[simp] theorem setChildBlob_children (st : SysState) (idx : Nat) (B : GoBuffer) :
    (st.setChildBlob idx B).root.children = setBlobAt st.root.children idx B := by
  simp [SysState.setChildBlob]

/-- Claim C6 (confirmed): writing `p` at offset `off` into an entry whose
buffer holds `L = B.len` bytes fails with the end-of-stream signal `io.EOF`
and leaves the buffer untouched when `off > L`; when `off ≤ L` (and the upload
succeeds) the buffer becomes the first `off` old bytes followed by `p` —
truncate-at-offset then append — and the call returns `len(p)`. -/
theorem c6_write_offset_semantics (st : SysState) (idx : Nat) (p : List Nat) (off : Nat)
    (f : FsTree) (B : GoBuffer)
    (hf : st.root.children[idx]? = some f) (hB : f.blob = some B)
    (hinv : B.len ≤ B.arr.length) :
    (off > B.len →
      (writeAt st idx p off).n = 0 ∧ (writeAt st idx p off).err = some Err.eof ∧
      ∃ g : FsTree, (writeAt st idx p off).st.root.children[idx]? = some g ∧
        g.blob = some B) ∧
    (off ≤ B.len → st.remote.uploadOk = true →
      (writeAt st idx p off).n = p.length ∧ (writeAt st idx p off).err = none ∧
      ∃ g : FsTree, ∃ B' : GoBuffer,
        (writeAt st idx p off).st.root.children[idx]? = some g ∧ g.blob = some B' ∧
        B'.bytes = B.bytes.take off ++ p) := by
  obtain ⟨g0, hg0, hname, hdir, hblob⟩ := sync_preserves st idx f hf
  have hgB : g0.blob = some B := hblob.trans hB
  constructor
  · intro hoff
    unfold writeAt
    simp only [hg0, hgB]
    rw [if_pos hoff]
    exact ⟨rfl, rfl, g0, hg0, hgB⟩
  · intro hoff hup
    have hupOk : ((sync st).1).remote.uploadOk = true := by
      rw [sync_remote]
      exact hup
    unfold writeAt
    simp only [hg0, hgB]
    rw [if_neg (not_lt.2 hoff), if_pos hupOk]
    refine ⟨rfl, rfl,
      g0.withBlob (some ((if off < B.len then B.truncate off else B).write p).1),
      ((if off < B.len then B.truncate off else B).write p).1, ?_, ?_, ?_⟩
    · simp only [uploadBlob_root, setChildBlob_children]
      exact setBlobAt_getElem?_self _ idx _ g0 hg0
    · simp
    · exact write_truncate_bytes B p off hoff (le_trans hoff hinv)

/-- Claim C6 (witness): writing `[9]` at offset 1 into a buffer holding
`[1, 2]` leaves contents `[1, 9]`, returns 1 byte written and no error. -/
theorem c6_witness :
    (writeAt (oneFileState (gs "f") ⟨[1, 2], 2⟩ [] true) 0 [9] 1).n = 1 ∧
    (writeAt (oneFileState (gs "f") ⟨[1, 2], 2⟩ [] true) 0 [9] 1).err = none ∧
    ∃ g : FsTree, ∃ B' : GoBuffer,
      (writeAt (oneFileState (gs "f") ⟨[1, 2], 2⟩ [] true) 0 [9] 1).st.root.children[0]? =
        some g ∧ g.blob = some B' ∧ B'.bytes = [1, 9] := by
  have h := (c6_write_offset_semantics (oneFileState (gs "f") ⟨[1, 2], 2⟩ [] true) 0 [9] 1
      (FsTree.node (gs "f") false (some ⟨[1, 2], 2⟩) []) ⟨[1, 2], 2⟩ rfl rfl
      (by decide)).2 (by decide) rfl
  obtain ⟨hn, he, g, B', hg, hb, hbytes⟩ := h
  exact ⟨hn, he, g, B', hg, hb, hbytes.trans (by decide)⟩

/-! ### The one-file system: `Sync`, `WriteAt`, `Size`, `ReadAt` traces -/

theorem sync_oneFile (nm : GoStr) (B : GoBuffer) (c : List Nat) (up : Bool) :
    sync (oneFileState nm B c up) = (oneFileState nm B c up, none) := by
  apply sync_id_of_subset
  · rfl
  · intro x hx
    simp only [oneFileState, Remote.names, List.map_cons, List.map_nil] at hx
    simpa [childNames, oneFileState] using hx

theorem oneFile_children_get (nm : GoStr) (B : GoBuffer) (c : List Nat) (up : Bool) :
    (oneFileState nm B c up).root.children[0]? =
      some (FsTree.node nm false (some B) []) := rfl

theorem oneFile_assocGet (nm : GoStr) (B : GoBuffer) (c : List Nat) (up : Bool) :
    assocGet (oneFileState nm B c up).remote.objects nm = some c := by
  simp [oneFileState, assocGet]

theorem oneFile_setChildBlob (nm : GoStr) (B B' : GoBuffer) (c : List Nat) (up : Bool) :
    (oneFileState nm B c up).setChildBlob 0 B' = oneFileState nm B' c up := rfl

theorem oneFile_uploadBlob (nm : GoStr) (B : GoBuffer) (c v : List Nat) (up : Bool) :
    (oneFileState nm B c up).uploadBlob nm v = oneFileState nm B v up := by
  simp [oneFileState, SysState.uploadBlob, assocSet]

theorem oneFile_uploadOk (nm : GoStr) (B : GoBuffer) (c : List Nat) (up : Bool) :
    (oneFileState nm B c up).remote.uploadOk = up := rfl

theorem writeAt_oneFile (nm : GoStr) (B : GoBuffer) (c b : List Nat) :
    writeAt (oneFileState nm B c true) 0 b 0 =
      ⟨oneFileState nm ((if 0 < B.len then B.truncate 0 else B).write b).1
        ((if 0 < B.len then B.truncate 0 else B).write b).1.bytes true,
       b.length, none⟩ := by
  unfold writeAt
  simp only [sync_oneFile, oneFile_children_get, FsTree.blob_node, FsTree.name_node,
    oneFile_setChildBlob, oneFile_uploadOk]
  rw [if_neg (Nat.not_lt_zero B.len)]
  simp only [if_true, oneFile_uploadBlob]

theorem sizeOp_oneFile (nm : GoStr) (B : GoBuffer) (c : List Nat) (up : Bool) :
    sizeOp (oneFileState nm B c up) 0 = (oneFileState nm B c up, B.bytes.length) := by
  unfold sizeOp isDirOp
  simp only [sync_oneFile]
  simp [oneFileState]

theorem readAt_oneFile (nm : GoStr) (B : GoBuffer) (c : List Nat) (up : Bool)
    (dstLen off : Nat) :
    readAt (oneFileState nm B c up) 0 dstLen off =
      if off ≥ c.length then
        ⟨oneFileState nm (B.reset.write c).1 c up, [], some Err.eof⟩
      else
        ⟨oneFileState nm (B.reset.write c).1 c up, (c.drop off).take dstLen, none⟩ := by
  have hb1 : ((B.reset.write c).1).bytes = c := reset_write_bytes B c
  have hsz : sizeOp (oneFileState nm (B.reset.write c).1 c up) 0 =
      (oneFileState nm (B.reset.write c).1 c up, c.length) := by
    rw [sizeOp_oneFile, hb1]
  unfold readAt
  simp only [sync_oneFile, oneFile_children_get, FsTree.blob_node, FsTree.name_node,
    oneFile_assocGet, oneFile_setChildBlob, hsz, hb1]

/-! ### Claim C7: write/read round trip -/

/-- Claim C7 (confirmed): on the one-file system — a faithful remote store by
construction, with no intervening operation — `write(p, b, 0)` succeeds
reporting `len(b)` bytes, and the following `read(p, 0, len(b))` returns
exactly `b` (for empty `b` the read reports the normal `EndOfFile` signal and
returns the empty byte string, which equals `b`). -/
theorem c7_write_read_round_trip (nm : GoStr) (B : GoBuffer) (c b : List Nat) :
    (writeAt (oneFileState nm B c true) 0 b 0).err = none ∧
    (writeAt (oneFileState nm B c true) 0 b 0).n = b.length ∧
    (readAt (writeAt (oneFileState nm B c true) 0 b 0).st 0 b.length 0).data = b := by
  have hw := writeAt_oneFile nm B c b
  have hbytes : ((if 0 < B.len then B.truncate 0 else B).write b).1.bytes = b := by
    have h := write_truncate_bytes B b 0 (Nat.zero_le _) (Nat.zero_le _)
    simpa using h
  refine ⟨by rw [hw], by rw [hw], ?_⟩
  have hst : (writeAt (oneFileState nm B c true) 0 b 0).st =
      oneFileState nm ((if 0 < B.len then B.truncate 0 else B).write b).1 b true := by
    rw [hw]
    show oneFileState nm _ (((if 0 < B.len then B.truncate 0 else B).write b).1.bytes) true = _
    rw [hbytes]
  rw [hst, readAt_oneFile]
  rcases Nat.eq_zero_or_pos b.length with hb | hb
  · rw [if_pos (by omega)]
    have hbnil : b = [] := List.length_eq_zero.1 hb
    simp [hbnil]
  · rw [if_neg (by omega)]
    simp

/-! ### Claim C1: failed-upload rollback -/

/-- Claim C1 (code bug): the rollback after a failed upload does NOT restore
the pre-write contents.  `buf := f.Blob.Contents()` aliases the buffer's
backing array; the in-place truncate-and-write mutates that array, so the
rollback's `Reset(); Write(buf)` restores the corrupted bytes.  Concretely:
`stC1mid` — reachable by writing `[10,20]` into a fresh entry (first
conjunct) — holds buffer `[10,20]`; a `WriteAt([88], 0)` whose upload fails
does surface the error and return 0 bytes, and leaves the remote object
untouched, but the local buffer afterwards reads `[88,20]`, not the pre-write
`[10,20]`. -/
theorem c1_rollback_corruption :
    ((writeAt stC1pre 0 [10, 20] 0).st.root.children[0]?.bind FsTree.blob).map
      GoBuffer.bytes = some [10, 20] ∧
    (writeAt stC1pre 0 [10, 20] 0).st.root = stC1mid.root ∧
    (writeAt stC1pre 0 [10, 20] 0).st.remote.objects = stC1mid.remote.objects ∧
    (stC1mid.root.children[0]?.bind FsTree.blob).map GoBuffer.bytes = some [10, 20] ∧
    (writeAt stC1mid 0 [88] 0).err = some Err.uploadFailed ∧
    (writeAt stC1mid 0 [88] 0).n = 0 ∧
    (writeAt stC1mid 0 [88] 0).st.remote.objects = [(gs "f", [10, 20])] ∧
    ((writeAt stC1mid 0 [88] 0).st.root.children[0]?.bind FsTree.blob).map
      GoBuffer.bytes = some [88, 20] ∧
    ([88, 20] : List Nat) ≠ [10, 20] :=
  ⟨rfl, rfl, rfl, rfl, rfl, rfl, rfl, rfl, by decide⟩

/-! ### Claim C8: content bindings of created entries -/

/-- Claim C8 (counterexample): creating the DIRECTORY `/d` still attaches a
content binding — `NewChild` calls `NewBlob` unconditionally, so a directory
entry does not have "no ContentBinding". -/
theorem c8_counterexample :
    insertTree newTree (gs "/d") true =
      Except.ok (newTree.withChildren [newNode (gs "d") true]) ∧
    (newNode (gs "d") true).dir = true ∧
    (newNode (gs "d") true).blob = some ⟨[], 0⟩ ∧
    some (⟨[], 0⟩ : GoBuffer) ≠ (none : Option GoBuffer) :=
  ⟨rfl, rfl, rfl, by decide⟩

/-- Claim C8 (amended): every entry `Insert` constructs — for an explicit
create or a reconciliation insert, directory or not — is a `NewChild`
appended to the resolved parent, and it carries exactly one fresh empty
content binding; only the root built by `NewTree` has none. -/
theorem c8_every_insert_has_binding (t : FsTree) (full : GoStr) (d : Bool) (t' : FsTree)
    (h : insertTree t full d = Except.ok t') :
    (∃ pos : Option Nat, t' = updatePos t pos (fun par =>
        par.withChildren (par.children ++ [newNode (pathSplit full).2 d]))) ∧
    (newNode (pathSplit full).2 d).blob = some ⟨[], 0⟩ ∧
    newTree.blob = none := by
  refine ⟨?_, rfl, rfl⟩
  unfold insertTree at h
  simp only [] at h
  rcases hpos : (if (pathSplit full).1 = ['/'] then some none
      else searchIdx t (pathSplit full).1) with _ | pos
  · rw [hpos] at h
    simp at h
  · rw [hpos] at h
    by_cases hdup : (findChild (resolvePos t pos).children (pathSplit full).2).isSome
    · simp [hdup] at h
    · simp [hdup] at h
      exact ⟨pos, h.symm⟩

/-- Claim C8 (witness): the amended theorem at the concrete insert of the
directory `/d` into a fresh tree. -/
theorem c8_witness :
    (∃ pos : Option Nat, newTree.withChildren [newNode (gs "d") true] =
      updatePos newTree pos (fun par =>
        par.withChildren (par.children ++ [newNode (pathSplit (gs "/d")).2 true]))) ∧
    (newNode (pathSplit (gs "/d")).2 true).blob = some ⟨[], 0⟩ ∧
    newTree.blob = none :=
  c8_every_insert_has_binding newTree (gs "/d") true
    (newTree.withChildren [newNode (gs "d") true]) rfl

/-! ### Claim C9: reported sizes -/

/-- Claim C9 (counterexample): the directory `d` has one immediate child, but
its reported size is 0 — `Size` in fs.go returns 0 for directories, not the
child count. -/
theorem c9_counterexample :
    (stC9cex.root.children[0]?.map (fun f => f.children.length)) = some 1 ∧
    (sizeOp stC9cex 0).2 = 0 :=
  ⟨rfl, rfl⟩

/-- Claim C9 (amended): the reported size of a directory entry is always 0;
the reported size of a regular entry is the length of its current content
buffer (no refresh beyond the discarded `Sync` is performed by `Size`
itself). -/
theorem c9_size_semantics (st : SysState) (idx : Nat) (f : FsTree)
    (hf : st.root.children[idx]? = some f) :
    (f.dir = true → (sizeOp st idx).2 = 0) ∧
    (∀ B : GoBuffer, f.dir = false → f.blob = some B →
      (sizeOp st idx).2 = B.bytes.length) := by
  obtain ⟨g1, hg1, hn1, hd1, hb1⟩ := sync_preserves st idx f hf
  obtain ⟨g2, hg2, hn2, hd2, hb2⟩ := sync_preserves ((sync st).1) idx g1 hg1
  have hdir : g2.dir = f.dir := hd2.trans hd1
  have hblob : g2.blob = f.blob := hb2.trans hb1
  constructor
  · intro hd
    unfold sizeOp isDirOp
    simp only [hg2, hdir, hd, if_true]
  · intro B hd hB
    unfold sizeOp isDirOp
    simp only [hg2, hdir, hd, hblob, hB, Bool.false_eq_true, if_false, Option.getD_some]

/-- Claim C9 (witness): the amended theorem at the one-child directory (size
0) and at a one-byte regular entry (size 1). -/
theorem c9_witness :
    (sizeOp stC9cex 0).2 = 0 ∧
    (sizeOp (oneFileState (gs "f") ⟨[7], 1⟩ [] true) 0).2 = 1 := by
  constructor
  · exact (c9_size_semantics stC9cex 0 (FsTree.node (gs "d") true (some ⟨[], 0⟩) [fX0])
      rfl).1 rfl
  · have h := (c9_size_semantics (oneFileState (gs "f") ⟨[7], 1⟩ [] true) 0
      (FsTree.node (gs "f") false (some ⟨[7], 1⟩) []) rfl).2 ⟨[7], 1⟩ rfl rfl
    simpa using h

end Abfs
